import Mathlib

/-!
Verification of `scripts/youtube_m3ugrabber.py`.

Texts and URLs are embedded as `List Char` (Python `str` is a sequence of
characters).  Python string primitives (`strip`, `lower`, `title`,
`split`, `find`, `rfind`, `startswith`, `endswith`) are re-implemented
below with their Python semantics for ASCII data; the Unicode-only
differences (e.g. `str.lower` on non-ASCII) are outside the inputs this
program handles and are noted where relevant.

Effects are embedded as oracles: the HTTP session (`Env.fetch`, where
`none` models an exception raised by `session.get`), the optional
BeautifulSoup dependency (`Env.bs4`, `none` models `BeautifulSoup = None`
after a failed import), and `urllib.parse.urljoin` (`Env.urljoin`).
`grab_m3u8_log` additionally records the list of URLs passed to
`session.get`, so that claims about which fetches are performed are
expressible.
-/

/-- Python whitespace for `str.strip()` / `\s` (ASCII range). -/
def isPySpace (c : Char) : Bool :=
  c = ' ' || c = '\t' || c = '\n' || c = '\r' || c = '\x0b' || c = '\x0c'

/-- `needle.startsW hay`: `hay.startswith(needle)` (Python), needle first. -/
def startsW : List Char → List Char → Bool
  | [], _ => true
  | _ :: _, [] => false
  | p :: ps, c :: cs => if p = c then startsW ps cs else false

/-- Python `hay.endswith(suffix)`. -/
def endsWithL (suf l : List Char) : Bool :=
  startsW suf.reverse l.reverse

/-- `needle in hay` (Python substring containment). -/
def containsSub (needle : List Char) : List Char → Bool
  | [] => startsW needle []
  | s@(_ :: cs) => startsW needle s || containsSub needle cs

/-- Python `hay.find(needle)` starting from running index `i`
(`none` = Python's `-1`). -/
def findSub (needle : List Char) : Nat → List Char → Option Nat
  | i, [] => if startsW needle [] then some i else none
  | i, s@(_ :: cs) => if startsW needle s then some i else findSub needle (i + 1) cs

/-- Python `hay.rfind(needle)`: index of the last occurrence
(`acc` carries the best match seen so far). -/
def rfindSubAux (needle : List Char) : Nat → Option Nat → List Char → Option Nat
  | i, acc, [] => if startsW needle [] then some i else acc
  | i, acc, s@(_ :: cs) =>
    rfindSubAux needle (i + 1) (if startsW needle s then some i else acc) cs

/-- Python `s.strip()` (both ends, default whitespace). -/
def pyStrip (l : List Char) : List Char :=
  ((l.dropWhile isPySpace).reverse.dropWhile isPySpace).reverse

/-- Strip the given character class from both ends: Python `s.strip(chars)`. -/
def stripBoth (p : Char → Bool) (l : List Char) : List Char :=
  ((l.dropWhile p).reverse.dropWhile p).reverse

/-- Python `s.lower()` (ASCII case mapping). -/
def lowerL (l : List Char) : List Char :=
  l.map Char.toLower

/-- One step of Python `str.title()`: `prev` records whether the previous
character was cased. -/
def pyTitleGo : Bool → List Char → List Char
  | _, [] => []
  | prev, c :: cs =>
    if c.isAlpha then
      (if prev then c.toLower else c.toUpper) :: pyTitleGo true cs
    else
      c :: pyTitleGo false cs

/-- Python `s.title()` (ASCII): first cased character of each run of cased
characters is uppercased, the rest lowercased. -/
def pyTitle (l : List Char) : List Char :=
  pyTitleGo false l

/-- Python `s.split('|')`: split on every bar, keeping empty pieces. -/
def splitPipe : List Char → List (List Char)
  | [] => [[]]
  | c :: cs =>
    if c = '|' then [] :: splitPipe cs
    else
      match splitPipe cs with
      | h :: t => (c :: h) :: t
      | [] => [[c]]

/-- The characters of the literal `".m3u8"`. -/
def dotM3u8L : List Char := ['.', 'm', '3', 'u', '8']

/-- The characters of the literal `"http"`. -/
def httpL : List Char := ['h', 't', 't', 'p']

/-- The strip set of `candidate.strip('\'"<>),;')` in step 2 of
`find_m3u8_in_text`. -/
def isStripChar (c : Char) : Bool :=
  c = '\'' || c = '"' || c = '<' || c = '>' || c = ')' || c = ',' || c = ';'

/-!
### The regexes

`URL_RE    = https?://[^\s"'<>#]+?\.m3u8` (IGNORECASE, lazy body)
`SIMPLE_URL_RE = https?://[^\s"'<>]+`     (IGNORECASE, greedy body)

`re.search` finds the leftmost position admitting a match; the lazy `+?`
takes the shortest body there, the greedy `+` the longest.
-/

/-- Character class `[^\s"'<>#]` of `URL_RE`. -/
def isUrlChar1 (c : Char) : Bool :=
  !(isPySpace c || c = '"' || c = '\'' || c = '<' || c = '>' || c = '#')

/-- Character class `[^\s"'<>]` of `SIMPLE_URL_RE`. -/
def isUrlChar2 (c : Char) : Bool :=
  !(isPySpace c || c = '"' || c = '\'' || c = '<' || c = '>')

/-- Match `https?://` case-insensitively at the head; returns the matched
characters (original case) and the remainder.  `s?` is greedy, so an `s`
followed by `://` is preferred, mirroring the regex backtracking. -/
def stripHttp : List Char → Option (List Char × List Char)
  | c0 :: c1 :: c2 :: c3 :: rest =>
    if c0.toLower = 'h' && c1.toLower = 't' && c2.toLower = 't' && c3.toLower = 'p' then
      match rest with
      | c4 :: c5 :: c6 :: c7 :: rest2 =>
        if c4.toLower = 's' && c5 = ':' && c6 = '/' && c7 = '/' then
          some ([c0, c1, c2, c3, c4, c5, c6, c7], rest2)
        else if c4 = ':' && c5 = '/' && c6 = '/' then
          some ([c0, c1, c2, c3, c4, c5, c6], c7 :: rest2)
        else none
      | [c4, c5, c6] =>
        if c4 = ':' && c5 = '/' && c6 = '/' then
          some ([c0, c1, c2, c3, c4, c5, c6], [])
        else none
      | _ => none
    else none
  | _ => none

/-- Match `\.m3u8` case-insensitively at the head; returns the five
consumed characters (original case) and the remainder. -/
def stripDotM3u8 : List Char → Option (List Char × List Char)
  | d :: m :: t :: u :: e :: rest =>
    if d = '.' && m.toLower = 'm' && t = '3' && u.toLower = 'u' && e = '8' then
      some ([d, m, t, u, e], rest)
    else none
  | _ => none

/-- Lazy `[^\s"'<>#]+?\.m3u8`: consume at least one class character, trying
after each one whether `\.m3u8` matches next (shortest match first). -/
def matchLazyBody : List Char → Option (List Char)
  | [] => none
  | c :: cs =>
    if isUrlChar1 c then
      match stripDotM3u8 cs with
      | some (suf, _) => some (c :: suf)
      | none =>
        match matchLazyBody cs with
        | some body => some (c :: body)
        | none => none
    else none

/-- Attempt `URL_RE` anchored at the head of `s`. -/
def matchUrlAt (s : List Char) : Option (List Char) :=
  match stripHttp s with
  | none => none
  | some (pre, rest) =>
    match matchLazyBody rest with
    | none => none
    | some body => some (pre ++ body)

/-- `URL_RE.search(text)`: leftmost match (lazy body). -/
def searchUrlRe : List Char → Option (List Char)
  | [] => none
  | s@(_ :: cs) =>
    match matchUrlAt s with
    | some m => some m
    | none => searchUrlRe cs

/-- Attempt `SIMPLE_URL_RE` anchored at the head of `s`: greedy body of at
least one character.  Returns the match and the remainder of the text. -/
def matchSimpleAt (s : List Char) : Option (List Char × List Char) :=
  match stripHttp s with
  | none => none
  | some (pre, rest) =>
    match rest.takeWhile isUrlChar2 with
    | [] => none
    | body@(_ :: _) => some (pre ++ body, rest.drop body.length)

/-- `SIMPLE_URL_RE.findall(text)` with fuel (each step either advances one
character or consumes a whole non-overlapping match, so `text.length`
fuel suffices). -/
def findallSimpleAux : Nat → List Char → List (List Char)
  | 0, _ => []
  | _, [] => []
  | fuel + 1, s@(_ :: cs) =>
    match matchSimpleAt s with
    | some (m, rest) => m :: findallSimpleAux fuel rest
    | none => findallSimpleAux fuel cs

/-- `SIMPLE_URL_RE.findall(text)`: all non-overlapping matches, left to
right, each greedy. -/
def findallSimple (s : List Char) : List (List Char) :=
  findallSimpleAux s.length s

/-!
### `find_m3u8_in_text`
-/

/-- Step 2 of `find_m3u8_in_text`: locate the first `.m3u8` in the lowered
text, open a window `[idx-400, idx+20)` of the original text, take the text
from the last case-sensitive `http` in the window, cut it at whitespace
(`.split()[0]`), strip `'\"<>),;` from both ends, and accept the candidate
when it still ends in `.m3u8` (case-insensitively).  Python's `max(0, _)`
is Nat subtraction here.  (`.split()[0]` equals `takeWhile` of
non-whitespace because the slice starts at the non-space `h` of `http`.) -/
def contextWindow (text : List Char) : Option (List Char) :=
  match findSub dotM3u8L 0 (lowerL text) with
  | none => none
  | some idx =>
    let start := idx - 400
    let stop := min text.length (idx + 20)
    let window := (text.drop start).take (stop - start)
    match rfindSubAux httpL 0 none window with
    | none => none
    | some hi =>
      let tok := (window.drop hi).takeWhile (fun c => !(isPySpace c))
      let cand := stripBoth isStripChar tok
      if endsWithL dotM3u8L (lowerL cand) then some cand else none

/-- Consume `(?:href|src)=` case-insensitively at the head of `s`. -/
def stripKeyEq (s : List Char) : Option (List Char) :=
  if lowerL (s.take 5) = ['h', 'r', 'e', 'f', '='] then some (s.drop 5)
  else if lowerL (s.take 4) = ['s', 'r', 'c', '='] then some (s.drop 4)
  else none

/-- Attempt `(?:href|src)=["']([^"']+\.m3u8)["']` anchored at the head of
`s`, returning capture group 1.  Because `[^"']+` cannot cross a quote, the
greedy group with the trailing `\.m3u8["']` matches exactly when the full
quoted run (length ≥ 6) ends in `.m3u8` and is followed by a quote. -/
def matchRelAt (s : List Char) : Option (List Char) :=
  match stripKeyEq s with
  | none => none
  | some rest =>
    match rest with
    | [] => none
    | q :: rest2 =>
      if q = '"' || q = '\'' then
        let run := rest2.takeWhile (fun c => !(c = '"' || c = '\''))
        let after := rest2.drop run.length
        if 6 ≤ run.length && endsWithL dotM3u8L (lowerL run) &&
            (match after with | c :: _ => c = '"' || c = '\'' | [] => false) then
          some run
        else none
      else none

/-- `rel_re.search(text)`: leftmost match of the relative-reference regex,
returning capture group 1. -/
def searchRelRe : List Char → Option (List Char)
  | [] => none
  | s@(_ :: cs) =>
    match matchRelAt s with
    | some g => some g
    | none => searchRelRe cs

/-- BeautifulSoup, modelled as an oracle: `extract` is the result of
`try_extract_via_bs4`'s tag inspection on (text, base_url) — `none` covers
both "nothing found" and an exception inside the `try` —, and `scriptSrcs`
is the list `urljoin(url, s['src'])` for the page's `<script src=...>`
tags on (text, page_url) — `[]` covers an exception inside the `try`. -/
structure Bs4 where
  extract : List Char → List Char → Option (List Char)
  scriptSrcs : List Char → List Char → List (List Char)

/-- The ambient effects of the script: the HTTP session (`fetch url =
none` models `session.get` raising), the optional BeautifulSoup module,
and `urllib.parse.urljoin`. -/
structure Env where
  fetch : List Char → Option (List Char)
  bs4 : Option Bs4
  urljoin : List Char → List Char → List Char

/-- `find_m3u8_in_text(text, base_url)`: step 1 is the direct `URL_RE`
search, step 2 the context window, step 3 (only when `base_url` is truthy,
i.e. non-empty) the `href/src` relative-reference regex joined against
`base_url`. -/
def find_m3u8_in_text (env : Env) (text : List Char) (base_url : List Char) :
    Option (List Char) :=
  match searchUrlRe text with
  | some m => some m
  | none =>
    match contextWindow text with
    | some c => some c
    | none =>
      if base_url.isEmpty then none
      else
        match searchRelRe text with
        | some g => some (env.urljoin base_url g)
        | none => none

/-- `try_extract_via_bs4(text, base_url)`: `None` when BeautifulSoup is
unavailable, otherwise the oracle's tag-inspection result. -/
def try_extract_via_bs4 (env : Env) (text : List Char) (base_url : List Char) :
    Option (List Char) :=
  match env.bs4 with
  | none => none
  | some b => b.extract text base_url

/-!
### `grab_m3u8`
-/

/-- The fixed fallback constant `FALLBACK_M3U`. -/
def FALLBACK_M3U : List Char :=
  "https://raw.githubusercontent.com/benmoose39/YouTube_to_m3u/main/assets/moose_na.m3u".toList

/-- `urlparse(url).scheme`: the part before the first `:`, lowercased, when
it is non-empty, starts with a letter and uses only scheme characters;
otherwise the empty string. -/
def schemeOf (url : List Char) : List Char :=
  let pre := url.takeWhile (fun c => !(c = ':'))
  if pre.length < url.length &&
      (match pre with
       | [] => false
       | c :: cs => c.isAlpha && cs.all (fun d => d.isAlpha || d.isDigit || d = '+' || d = '-' || d = '.')) then
    lowerL pre
  else []

/-- The `<script src>` URLs gathered before the last-resort loop: empty
when BeautifulSoup is unavailable (or its parse raised), else the oracle's
already-`urljoin`ed list. -/
def scriptSrcsOf (env : Env) (text : List Char) (page_url : List Char) :
    List (List Char) :=
  match env.bs4 with
  | none => []
  | some b => b.scriptSrcs text page_url

/-- The last-resort loop of `grab_m3u8` over (at most 5, pre-truncated)
script URLs, threading the log of fetched URLs: a failing `session.get`
(`none`) is skipped (`except: continue`), a fetched body is searched with
the full `find_m3u8_in_text` using the script URL as base; the first link
found is returned, else `FALLBACK_M3U`. -/
def scriptLoop (env : Env) : List (List Char) → List (List Char) →
    List Char × List (List Char)
  | [], log => (FALLBACK_M3U, log)
  | s :: rest, log =>
    match env.fetch s with
    | none => scriptLoop env rest (log ++ [s])
    | some body =>
      match find_m3u8_in_text env body s with
      | some link => (link, log ++ [s])
      | none => scriptLoop env rest (log ++ [s])

/-- `grab_m3u8(session, url)` together with the list of URLs passed to
`session.get`, in order.  Mirrors the source: strip the URL (empty →
fallback, no fetch); fetch the page (exception → fallback);
`find_m3u8_in_text`; `try_extract_via_bs4`; the `SIMPLE_URL_RE` scan
keeping the first candidate that ends in `.m3u8` case-insensitively (with
the `//`-normalisation branch of the source, unreachable for these
candidates); finally the bounded external-script loop.  (The local `base`
computed from `urlparse` in the source is never used and is omitted.) -/
def grab_m3u8_log (env : Env) (url : List Char) : List Char × List (List Char) :=
  let u := pyStrip url
  if u.isEmpty then (FALLBACK_M3U, [])
  else
    match env.fetch u with
    | none => (FALLBACK_M3U, [u])
    | some text =>
      match find_m3u8_in_text env text u with
      | some link => (link, [u])
      | none =>
        match try_extract_via_bs4 env text u with
        | some link => (link, [u])
        | none =>
          match (findallSimple text).find? (fun c => endsWithL dotM3u8L (lowerL c)) with
          | some cand =>
            (if startsW ['/', '/'] cand then schemeOf u ++ ':' :: cand else cand, [u])
          | none =>
            scriptLoop env ((scriptSrcsOf env text u).take 5) [u]

/-- `grab_m3u8(session, url)`: the returned link. -/
def grab_m3u8 (env : Env) (url : List Char) : List Char :=
  (grab_m3u8_log env url).1

/-!
### `process_input_file`

The loop writes to `output_stream` line by line with no state carried
between iterations (the source's `tasks`/`i` are never used), so the
output is the header followed by the concatenation of each input line's
own contribution.  The input file is modelled as the list of its lines
(after the source's `rstrip('\n')`); a missing file is the `none` case and
raises `FileNotFoundError` before anything is written.
-/

/-- The decorative `BANNER` constant (a raw string starting and ending
with a newline). -/
def BANNER : List Char :=
  ("\n#########################################################################\n" ++
   "#      ____            _           _   __  __                           #\n" ++
   "#     |  _ \\ _ __ ___ (_) ___  ___| |_|  \\/  | ___   ___  ___  ___      #\n" ++
   "#     | |_) | '__/ _ \\| |/ _ \\/ __| __| |\\/| |/ _ \\ / _ \\/ __|/ _ \\     #\n" ++
   "#     |  __/| | | (_) | |  __/ (__| |_| |  | | (_) | (_) \\__ \\  __/     #\n" ++
   "#     |_|   |_|  \\___// |\\___|\\___|\\__|_|  |_|\\___/ \\___/|___/\\___|     #\n" ++
   "#                   |__/                                                #\n" ++
   "#                                  >> https://github.com/benmoose39     #\n" ++
   "#########################################################################\n").toList

/-- The leading `#EXTM3U` directive line. -/
def extm3uDirective : List Char :=
  "#EXTM3U x-tvg-url=\"https://github.com/botallen/epg/releases/download/latest/epg.xml\"\n".toList

/-- Everything written before the per-line loop: the directive, the banner
and the extra newline of `write(BANNER + '\n')`. -/
def headerChunk : List Char :=
  extm3uDirective ++ BANNER ++ ['\n']

/-- The output contribution of one input line: nothing for a blank or
`~~`-prefixed (stripped) line; the grabbed link plus newline for a line
starting (case-insensitively) with `http`; otherwise the `EXTINF`
directive built from the first four `|`-fields (each stripped, the group
title-cased), or the stripped line as a `# ` comment when there are fewer
than four fields. -/
def processLine (env : Env) (raw : List Char) : List Char :=
  let line := pyStrip raw
  if line.isEmpty || startsW ['~', '~'] line then []
  else if startsW httpL (lowerL line) then
    grab_m3u8 env line ++ ['\n']
  else
    match (splitPipe line).map pyStrip with
    | a :: b :: c :: d :: _ =>
      "\n#EXTINF:-1 group-title=\"".toList ++ pyTitle b ++
        "\" tvg-logo=\"".toList ++ c ++
        "\" tvg-id=\"".toList ++ d ++
        "\", ".toList ++ a ++ ['\n']
    | _ => "\n# ".toList ++ line ++ ['\n']

/-- The per-line loop of `process_input_file`, concatenating each line's
output in input order. -/
def processLines (env : Env) : List (List Char) → List Char
  | [] => []
  | l :: rest => processLine env l ++ processLines env rest

/-- `process_input_file(input_path, session, output_stream)`: a missing
input file (`none`) raises `FileNotFoundError` before any output is
written; otherwise the produced stream is the header chunk followed by the
loop's output. -/
def process_input_file (env : Env) (file : Option (List (List Char))) :
    Except String (List Char) :=
  match file with
  | none => Except.error "FileNotFoundError"
  | some lines => Except.ok (headerChunk ++ processLines env lines)

/-- Whether a raw input line survives the skip test of the loop
(non-blank after stripping and not `~~`-prefixed). -/
def keepLine (raw : List Char) : Bool :=
  !((pyStrip raw).isEmpty || startsW ['~', '~'] (pyStrip raw))

/-!
### The extractor-library resolver (spec §4.3)

Modelled from the spec: the repository's extractor-library script variants
(the alternate strategy delegating to an external video-extraction
facility) are not under `src/`; only the heuristic scraper is.  The
definitions below follow §4.3 of the spec: descriptors with a resolvable
vertical resolution are ranked in descending order; among them the
highest-resolution HLS descriptor (`m3u8` appears in protocol, extension
or URL) is picked; else the highest-resolution one with any URL; else a
top-level URL, else the fallback constant.
-/

/-- Modelled from the spec: one format descriptor of the extraction
facility, with an optional resolved vertical resolution (the spec's
explicit height / `WIDTHxHEIGHT` / `NNNp` parses all yield this number),
protocol, extension and URL (empty = no URL). -/
structure FormatDesc where
  height : Option Nat
  protocol : List Char
  ext : List Char
  url : List Char
deriving DecidableEq

/-- Modelled from the spec: a descriptor indicates HLS when `m3u8` appears
in its protocol name, extension or URL. -/
def isHls (f : FormatDesc) : Bool :=
  containsSub "m3u8".toList f.protocol || containsSub "m3u8".toList f.ext ||
    containsSub "m3u8".toList f.url

/-- A descriptor's resolved vertical resolution. -/
def heightOf (f : FormatDesc) : Nat :=
  f.height.getD 0

/-- The descending ranking order on descriptors. -/
def rankGE (a b : FormatDesc) : Prop :=
  heightOf b ≤ heightOf a

instance : DecidableRel rankGE := fun a b => Nat.decLe (heightOf b) (heightOf a)

instance : IsTotal FormatDesc rankGE :=
  ⟨fun a b => (Nat.le_total (heightOf b) (heightOf a)).imp id id⟩

instance : IsTrans FormatDesc rankGE :=
  ⟨fun _ _ _ h1 h2 => Nat.le_trans h2 h1⟩

/-- Modelled from the spec (§4.3): rank the descriptors with a resolvable
resolution in descending order; pick the highest-resolution HLS one; else
the highest-resolution one with any URL; else the top-level URL if
present, else `FALLBACK_M3U`. -/
def bestFormat (formats : List FormatDesc) (topUrl : Option (List Char)) :
    List Char :=
  let ranked := List.insertionSort rankGE (formats.filter (fun f => f.height.isSome))
  match ranked.find? isHls with
  | some f => f.url
  | none =>
    match ranked.find? (fun f => !f.url.isEmpty) with
    | some f => f.url
    | none => topUrl.getD FALLBACK_M3U

/-!
### Helper lemmas
-/

lemma dropWhile_idem (p : Char → Bool) (x : List Char) :
    List.dropWhile p (List.dropWhile p x) = List.dropWhile p x := by
  induction x with
  | nil => rfl
  | cons c cs ih =>
    cases h : p c
    · simp [List.dropWhile_cons, h]
    · simp [List.dropWhile_cons, h, ih]

lemma dropWhile_head_false {p : Char → Bool} {x : List Char} {c : Char}
    {cs : List Char} (h : List.dropWhile p x = c :: cs) : p c = false := by
  induction x with
  | nil => simp at h
  | cons a as ih =>
    cases ha : p a
    · rw [List.dropWhile_cons_of_neg (by simp [ha])] at h
      cases h
      exact ha
    · rw [List.dropWhile_cons_of_pos ha] at h
      exact ih h

lemma dropWhile_rev_self (p : Char → Bool) (x : List Char) :
    (((x.dropWhile p).reverse.dropWhile p).reverse).dropWhile p
      = ((x.dropWhile p).reverse.dropWhile p).reverse := by
  cases hzr : ((x.dropWhile p).reverse.dropWhile p).reverse with
  | nil => simp
  | cons c cs =>
    obtain ⟨t, ht⟩ := List.dropWhile_suffix (l := (x.dropWhile p).reverse) p
    have hz : (x.dropWhile p).reverse.dropWhile p = (c :: cs).reverse := by
      rw [← hzr]; simp
    rw [hz] at ht
    have hy : x.dropWhile p = c :: (cs ++ t.reverse) := by
      have h2 := congrArg List.reverse ht
      simpa using h2.symm
    have hc : p c = false := dropWhile_head_false hy
    exact List.dropWhile_cons_of_neg (by simp [hc])

lemma pyStrip_idem (l : List Char) : pyStrip (pyStrip l) = pyStrip l := by
  unfold pyStrip
  rw [dropWhile_rev_self isPySpace l, List.reverse_reverse, dropWhile_idem]

/-- When `session.get` on the stripped URL raises, `grab_m3u8` returns the
fallback constant (also when the stripped URL is empty and no fetch
happens at all). -/
lemma grab_eq_fallback_of_fetch_none (env : Env) (url : List Char)
    (h : env.fetch (pyStrip url) = none) : grab_m3u8 env url = FALLBACK_M3U := by
  unfold grab_m3u8 grab_m3u8_log
  by_cases he : (pyStrip url).isEmpty
  · simp [he]
  · simp [he, h]

/-!
### Claims
-/

/-- **C1.** For every input URL, `grab_m3u8` returns a string (it is a
total function into `List Char`) and never raises; in particular, when the
initial page fetch fails — `session.get` raising is modelled by
`env.fetch (pyStrip url) = none` — it returns the fixed fallback constant
`FALLBACK_M3U`. -/
theorem grab_m3u8_fallback_on_fetch_error (env : Env) (url : List Char)
    (h : env.fetch (pyStrip url) = none) : grab_m3u8 env url = FALLBACK_M3U :=
  grab_eq_fallback_of_fetch_none env url h

/-- An environment whose every fetch raises. -/
def envAllFail : Env :=
  { fetch := fun _ => none, bs4 := none, urljoin := fun _ r => r }

theorem grab_m3u8_fallback_on_fetch_error_witness :
    grab_m3u8 envAllFail "http://example.com/live".toList = FALLBACK_M3U :=
  grab_m3u8_fallback_on_fetch_error envAllFail "http://example.com/live".toList rfl

/-- **C10.** For every input whose stripped form is empty (empty or
whitespace-only URL), `grab_m3u8` returns the fallback constant and its
fetch log is empty: no network fetch is performed. -/
theorem grab_m3u8_empty_url_no_fetch (env : Env) (url : List Char)
    (h : pyStrip url = []) :
    grab_m3u8 env url = FALLBACK_M3U ∧ (grab_m3u8_log env url).2 = [] := by
  unfold grab_m3u8 grab_m3u8_log
  simp [h]

theorem grab_m3u8_empty_url_no_fetch_witness :
    grab_m3u8 envAllFail "   ".toList = FALLBACK_M3U ∧
      (grab_m3u8_log envAllFail "   ".toList).2 = [] :=
  grab_m3u8_empty_url_no_fetch envAllFail "   ".toList (by decide)

/-- **C2.** Whenever the fetched page body admits a `URL_RE` match (an
absolute URL ending in `.m3u8`), `grab_m3u8` returns exactly the first
such occurrence (`searchUrlRe` is leftmost-first), before any other
heuristic is tried: the result does not depend on the BeautifulSoup or
`urljoin` oracles, and the fetch log shows that only the page itself was
fetched. -/
theorem grab_m3u8_returns_first_direct_regex_match (env : Env) (url text m : List Char)
    (h0 : (pyStrip url).isEmpty = false)
    (h1 : env.fetch (pyStrip url) = some text)
    (h2 : searchUrlRe text = some m) :
    grab_m3u8 env url = m ∧ (grab_m3u8_log env url).2 = [pyStrip url] := by
  unfold grab_m3u8 grab_m3u8_log find_m3u8_in_text
  simp [h0, h1, h2]

/-- A single-page environment for the C2 witness. -/
def envPageC2 : Env :=
  { fetch := fun _ => some "see http://x.m3u8 ok".toList,
    bs4 := none, urljoin := fun _ r => r }

theorem grab_m3u8_returns_first_direct_regex_match_witness :
    grab_m3u8 envPageC2 " http://p ".toList = "http://x.m3u8".toList ∧
      (grab_m3u8_log envPageC2 " http://p ".toList).2 = ["http://p".toList] :=
  grab_m3u8_returns_first_direct_regex_match envPageC2 " http://p ".toList
    "see http://x.m3u8 ok".toList "http://x.m3u8".toList (by decide) rfl (by decide)

/-- A skipped (blank or `~~`-prefixed) line contributes nothing. -/
lemma processLine_skip (env : Env) (raw : List Char) (h : keepLine raw = false) :
    processLine env raw = [] := by
  unfold keepLine at h
  unfold processLine
  cases hc : ((pyStrip raw).isEmpty || startsW ['~', '~'] (pyStrip raw))
  · rw [hc] at h; simp at h
  · simp [hc]

/-- The loop output is the concatenation, in input order, of the kept
lines' contributions. -/
lemma processLines_eq_join_filter (env : Env) (lines : List (List Char)) :
    processLines env lines =
      List.flatten ((lines.filter keepLine).map (processLine env)) := by
  induction lines with
  | nil => rfl
  | cons l rest ih =>
    cases hk : keepLine l
    · simp [processLines, List.filter_cons, hk, processLine_skip env l hk, ih]
    · simp [processLines, List.filter_cons, hk, ih]

/-- **C4.** A kept metadata line (not `http`-prefixed, case-insensitively)
with at least four `|`-fields contributes exactly one `EXTINF` directive,
with the group field title-cased and the name, logo and id fields
inserted verbatim. -/
theorem processLine_extinf_four_fields (env : Env) (raw a b c d : List Char)
    (rest : List (List Char))
    (h1 : (pyStrip raw).isEmpty = false)
    (h2 : startsW ['~', '~'] (pyStrip raw) = false)
    (h3 : startsW httpL (lowerL (pyStrip raw)) = false)
    (h4 : (splitPipe (pyStrip raw)).map pyStrip = a :: b :: c :: d :: rest) :
    processLine env raw =
      "\n#EXTINF:-1 group-title=\"".toList ++ pyTitle b ++
        "\" tvg-logo=\"".toList ++ c ++ "\" tvg-id=\"".toList ++ d ++
        "\", ".toList ++ a ++ ['\n'] := by
  unfold processLine
  simp [h1, h2, h3, h4]

theorem processLine_extinf_four_fields_witness :
    processLine envAllFail "Ch | sports hd | logo.png | id1".toList =
      "\n#EXTINF:-1 group-title=\"".toList ++ pyTitle "sports hd".toList ++
        "\" tvg-logo=\"".toList ++ "logo.png".toList ++ "\" tvg-id=\"".toList ++
        "id1".toList ++ "\", ".toList ++ "Ch".toList ++ ['\n'] :=
  processLine_extinf_four_fields envAllFail "Ch | sports hd | logo.png | id1".toList
    "Ch".toList "sports hd".toList "logo.png".toList "id1".toList []
    (by decide) (by decide) (by decide) (by decide)

/-- **C5.** A kept metadata line with fewer than four `|`-fields
contributes the stripped line as a `# ` comment, which is not an `EXTINF`
line; no error is raised (the function is total). -/
theorem processLine_comment_fewer_fields (env : Env) (raw : List Char)
    (h1 : (pyStrip raw).isEmpty = false)
    (h2 : startsW ['~', '~'] (pyStrip raw) = false)
    (h3 : startsW httpL (lowerL (pyStrip raw)) = false)
    (h4 : ((splitPipe (pyStrip raw)).map pyStrip).length < 4) :
    processLine env raw = "\n# ".toList ++ pyStrip raw ++ ['\n'] ∧
      startsW "#EXTINF".toList ("# ".toList ++ pyStrip raw) = false := by
  constructor
  · unfold processLine
    rcases hps : (splitPipe (pyStrip raw)).map pyStrip with _ | ⟨a, _ | ⟨b, _ | ⟨c, _ | ⟨d, t⟩⟩⟩⟩
    · simp [h1, h2, h3, hps]
    · simp [h1, h2, h3, hps]
    · simp [h1, h2, h3, hps]
    · simp [h1, h2, h3, hps]
    · exfalso
      rw [hps] at h4
      simp at h4
      omega
  · simp [startsW]

theorem processLine_comment_fewer_fields_witness :
    processLine envAllFail "Canal Um | desporto".toList =
      "\n# ".toList ++ pyStrip "Canal Um | desporto".toList ++ ['\n'] ∧
      startsW "#EXTINF".toList
        ("# ".toList ++ pyStrip "Canal Um | desporto".toList) = false :=
  processLine_comment_fewer_fields envAllFail "Canal Um | desporto".toList
    (by decide) (by decide) (by decide) (by decide)

/-- **C7.** The output stream is the header followed by the kept lines'
contributions concatenated in input order, and a blank or `~~`-prefixed
line contributes no output at all. -/
theorem process_input_file_preserves_order (env : Env) (lines : List (List Char)) :
    process_input_file env (some lines) =
      Except.ok (headerChunk ++
        List.flatten ((lines.filter keepLine).map (processLine env))) ∧
    (∀ raw, keepLine raw = false → processLine env raw = []) :=
  ⟨by simp [process_input_file, processLines_eq_join_filter],
   fun raw h => processLine_skip env raw h⟩

theorem process_input_file_preserves_order_witness :
    processLine envAllFail "~~ disabled channel".toList = [] :=
  (process_input_file_preserves_order envAllFail []).2
    "~~ disabled channel".toList (by decide)

/-- **C8.** A missing input file is fatal: `process_input_file` raises
`FileNotFoundError` with no output written; a per-line fetch failure, by
contrast, degrades that line to the fallback URL and leaves the
processing of the remaining lines untouched. -/
theorem process_input_file_missing_file_fatal (env : Env) (l : List Char)
    (rest : List (List Char))
    (hfail : env.fetch (pyStrip l) = none)
    (hkeep : keepLine l = true)
    (hurl : startsW httpL (lowerL (pyStrip l)) = true) :
    process_input_file env none = Except.error "FileNotFoundError" ∧
    processLines env (l :: rest) =
      (FALLBACK_M3U ++ ['\n']) ++ processLines env rest := by
  refine ⟨rfl, ?_⟩
  have hcond : ((pyStrip l).isEmpty || startsW ['~', '~'] (pyStrip l)) = false := by
    unfold keepLine at hkeep
    cases hc : ((pyStrip l).isEmpty || startsW ['~', '~'] (pyStrip l))
    · rfl
    · rw [hc] at hkeep; simp at hkeep
  have hgrab : grab_m3u8 env (pyStrip l) = FALLBACK_M3U :=
    grab_eq_fallback_of_fetch_none env (pyStrip l) (by rw [pyStrip_idem]; exact hfail)
  simp [processLines, processLine, hcond, hurl, hgrab]

theorem process_input_file_missing_file_fatal_witness :
    process_input_file envAllFail none = Except.error "FileNotFoundError" ∧
    processLines envAllFail ("http://dead.example".toList :: ["A | b | c | d".toList]) =
      (FALLBACK_M3U ++ ['\n']) ++ processLines envAllFail ["A | b | c | d".toList] :=
  process_input_file_missing_file_fatal envAllFail "http://dead.example".toList
    ["A | b | c | d".toList] rfl (by decide) (by decide)

/-- A successful `https?://` prefix match starts with an `h` (of either
case). -/
lemma stripHttp_head {s pre rest : List Char}
    (h : stripHttp s = some (pre, rest)) :
    ∃ c0 tl, pre = c0 :: tl ∧ c0.toLower = 'h' := by
  unfold stripHttp at h
  split at h
  next c0 c1 c2 c3 r =>
    split at h
    next hcond =>
      have hc0 : c0.toLower = 'h' := by
        simp only [Bool.and_eq_true, decide_eq_true_eq] at hcond
        exact hcond.1.1.1
      repeat' split at h
      all_goals first
        | exact Option.noConfusion h
        | (simp only [Option.some.injEq, Prod.mk.injEq] at h
           exact ⟨c0, _, h.1.symm, hc0⟩)
    next => simp at h
  next => simp at h

/-- A `SIMPLE_URL_RE` match never starts with `//`. -/
lemma matchSimpleAt_not_protorel {s m rest : List Char}
    (h : matchSimpleAt s = some (m, rest)) : startsW ['/', '/'] m = false := by
  unfold matchSimpleAt at h
  cases hsh : stripHttp s with
  | none => rw [hsh] at h; simp at h
  | some pr =>
    obtain ⟨pre, r⟩ := pr
    rw [hsh] at h
    dsimp only at h
    obtain ⟨c0, tl, hpre, hc0⟩ := stripHttp_head hsh
    cases hb : r.takeWhile isUrlChar2 with
    | nil => rw [hb] at h; simp at h
    | cons b bs =>
      rw [hb] at h
      simp only [Option.some.injEq, Prod.mk.injEq] at h
      have hm : m = pre ++ b :: bs := h.1.symm
      have hslash : c0 ≠ '/' := by
        intro e
        rw [e] at hc0
        simp at hc0
      rw [hm, hpre]
      have hslash2 : ('/' : Char) ≠ c0 := fun e => hslash e.symm
      simp [startsW, hslash2]

/-- No candidate produced by `SIMPLE_URL_RE.findall` starts with `//`. -/
lemma findall_not_protorel :
    ∀ (fuel : Nat) (s c : List Char), c ∈ findallSimpleAux fuel s →
      startsW ['/', '/'] c = false := by
  intro fuel
  induction fuel with
  | zero => intro s c h; simp [findallSimpleAux] at h
  | succ n ih =>
    intro s c h
    match s with
    | [] => simp [findallSimpleAux] at h
    | a :: cs =>
      rw [findallSimpleAux] at h
      cases hm : matchSimpleAt (a :: cs) with
      | none =>
        rw [hm] at h
        exact ih cs c h
      | some pr =>
        obtain ⟨m, rest⟩ := pr
        rw [hm] at h
        simp only [List.mem_cons] at h
        rcases h with rfl | h
        · exact matchSimpleAt_not_protorel hm
        · exact ih rest c h

/-- A page body whose only absolute URL contains `.m3u8` followed by a
trailing query, and whose first `.m3u8` occurrence defeats the earlier
heuristics. -/
def ctextC3 : List Char := "!.m3u8 junk http://a#x.m3u8?q".toList

/-- Environment serving `ctextC3` for the page `http://p`. -/
def envC3 : Env :=
  { fetch := fun u => if u = "http://p".toList then some ctextC3 else none,
    bs4 := none, urljoin := fun _ r => r }

/-- **C3 (counterexample).** The page text contains an absolute URL
(`http://a#x.m3u8?q`, found by the scan of all URLs) *containing* `.m3u8`,
and the earlier heuristics find nothing — yet the resolver returns the
fallback constant, not the claimed truncation `http://a#x.m3u8`: the code
tests `endswith('.m3u8')` and never truncates. -/
theorem grab_m3u8_step4_truncation_counterexample :
    grab_m3u8 envC3 "http://p".toList = FALLBACK_M3U ∧
    (findallSimple ctextC3).any (fun c => containsSub dotM3u8L (lowerL c)) = true ∧
    FALLBACK_M3U ≠ "http://a#x.m3u8".toList := by
  refine ⟨by decide, by decide, by decide⟩

/-- **C3 (amended).** When the earlier heuristics (direct regex, context
window, markup parsing) find nothing, the resolver returns — verbatim,
without truncation — the first URL of the whole-text scan that *ends
with* `.m3u8` case-insensitively; candidates merely containing `.m3u8`
are skipped (they fail the `find?` predicate). -/
theorem grab_m3u8_step4_returns_first_endswith (env : Env) (url text cand : List Char)
    (h0 : (pyStrip url).isEmpty = false)
    (h1 : env.fetch (pyStrip url) = some text)
    (h2 : find_m3u8_in_text env text (pyStrip url) = none)
    (h3 : try_extract_via_bs4 env text (pyStrip url) = none)
    (h4 : (findallSimple text).find? (fun c => endsWithL dotM3u8L (lowerL c)) = some cand) :
    grab_m3u8 env url = cand ∧ endsWithL dotM3u8L (lowerL cand) = true := by
  have hmem : cand ∈ findallSimple text := List.mem_of_find?_eq_some h4
  have hnp : startsW ['/', '/'] cand = false :=
    findall_not_protorel text.length text cand hmem
  have hp0 := List.find?_some h4
  have hp : endsWithL dotM3u8L (lowerL cand) = true := hp0
  refine ⟨?_, hp⟩
  unfold grab_m3u8 grab_m3u8_log
  simp [h0, h1, h2, h3, h4, hnp]

/-- A page whose first `.m3u8` is out of window range of any `http`, with
a later absolute URL that ends in `.m3u8` but is invisible to `URL_RE`
(a `#` in its body). -/
def ctextC3W : List Char := "z.m3u8 aaaaaaaaaaaaaaaaaaaa http://a#b.m3u8".toList

/-- Environment serving `ctextC3W`. -/
def envC3W : Env :=
  { fetch := fun _ => some ctextC3W, bs4 := none, urljoin := fun _ r => r }

theorem grab_m3u8_step4_returns_first_endswith_witness :
    grab_m3u8 envC3W "http://p".toList = "http://a#b.m3u8".toList ∧
      endsWithL dotM3u8L (lowerL "http://a#b.m3u8".toList) = true :=
  grab_m3u8_step4_returns_first_endswith envC3W "http://p".toList ctextC3W
    "http://a#b.m3u8".toList (by decide) rfl (by decide) rfl (by decide)

/-- Unfolding: a failing fetch is skipped, the loop continues. -/
lemma scriptLoop_cons_none (env : Env) (s : List Char)
    (rest log : List (List Char)) (h : env.fetch s = none) :
    scriptLoop env (s :: rest) log = scriptLoop env rest (log ++ [s]) := by
  conv_lhs => unfold scriptLoop
  rw [h]

/-- Unfolding: a fetched script body is searched with the full
`find_m3u8_in_text`. -/
lemma scriptLoop_cons_some (env : Env) (s body : List Char)
    (rest log : List (List Char)) (h : env.fetch s = some body) :
    scriptLoop env (s :: rest) log =
      match find_m3u8_in_text env body s with
      | some link => (link, log ++ [s])
      | none => scriptLoop env rest (log ++ [s]) := by
  conv_lhs => unfold scriptLoop
  rw [h]

/-- The script loop performs at most one fetch per script URL. -/
lemma scriptLoop_log_len (env : Env) :
    ∀ (L : List (List Char)) (log : List (List Char)),
      (scriptLoop env L log).2.length ≤ log.length + L.length := by
  intro L
  induction L with
  | nil => intro log; simp [scriptLoop]
  | cons s rest ih =>
    intro log
    cases hf : env.fetch s with
    | none =>
      rw [scriptLoop_cons_none env s rest log hf]
      have := ih (log ++ [s])
      simp at this ⊢
      omega
    | some body =>
      rw [scriptLoop_cons_some env s body rest log hf]
      cases hl : find_m3u8_in_text env body s with
      | none =>
        show (scriptLoop env rest (log ++ [s])).2.length ≤ log.length + (s :: rest).length
        have := ih (log ++ [s])
        simp at this ⊢
        omega
      | some link =>
        show (log ++ [s]).length ≤ log.length + (s :: rest).length
        simp

/-- The returned link of the script loop does not depend on the log
accumulated so far. -/
lemma scriptLoop_fst_log_irrel (env : Env) :
    ∀ (L : List (List Char)) (log log' : List (List Char)),
      (scriptLoop env L log).1 = (scriptLoop env L log').1 := by
  intro L
  induction L with
  | nil => intro log log'; rfl
  | cons s rest ih =>
    intro log log'
    cases hf : env.fetch s with
    | none =>
      rw [scriptLoop_cons_none env s rest log hf,
        scriptLoop_cons_none env s rest log' hf]
      exact ih (log ++ [s]) (log' ++ [s])
    | some body =>
      rw [scriptLoop_cons_some env s body rest log hf,
        scriptLoop_cons_some env s body rest log' hf]
      cases hl : find_m3u8_in_text env body s with
      | none =>
        show (scriptLoop env rest (log ++ [s])).1 = (scriptLoop env rest (log' ++ [s])).1
        exact ih (log ++ [s]) (log' ++ [s])
      | some link => rfl

/-- The page body used by the C6 counterexample: defeats every page-level
heuristic. -/
def ctextC6 : List Char := "no links here".toList

/-- The script body of the C6 counterexample: `URL_RE` finds nothing in it
(step 1 fails on the `#`), but the context-window heuristic of the full
`find_m3u8_in_text` does find the link. -/
def scriptC6 : List Char := "url: http://a#b.m3u8".toList

/-- Environment for the C6 counterexample: one page, one external script. -/
def envC6 : Env :=
  { fetch := fun u =>
      if u = "http://p".toList then some ctextC6
      else if u = "http://s1".toList then some scriptC6
      else none,
    bs4 := some { extract := fun _ _ => none,
                  scriptSrcs := fun _ _ => ["http://s1".toList] },
    urljoin := fun _ r => r }

/-- **C6 (counterexample).** In the last-resort loop the resolver returns
a link from a fetched script body on which the step-1 direct regex finds
nothing: the loop applies the *full* `find_m3u8_in_text` (here its
context-window step), not only the step-1 text search, so the claimed
behaviour (fallback, since step 1 finds no link in any script) disagrees
with the code. -/
theorem grab_m3u8_scriptloop_step1_counterexample :
    grab_m3u8 envC6 "http://p".toList = "http://a#b.m3u8".toList ∧
    searchUrlRe scriptC6 = none ∧
    ("http://a#b.m3u8".toList : List Char) ≠ FALLBACK_M3U := by
  refine ⟨by decide, by decide, by decide⟩

/-- **C6 (amended).** When the page-level heuristics all fail, the
resolver runs the script loop over at most the first 5 script URLs (so at
most 6 fetches happen in total, page included), applies the full
`find_m3u8_in_text` search — not only the step-1 direct regex — to each
fetched script body, returns the first link found, and a fetch failure
for one script does not abort the scan of the remaining ones. -/
theorem grab_m3u8_scriptloop_bounded (env : Env) (url text : List Char)
    (h0 : (pyStrip url).isEmpty = false)
    (h1 : env.fetch (pyStrip url) = some text)
    (h2 : find_m3u8_in_text env text (pyStrip url) = none)
    (h3 : try_extract_via_bs4 env text (pyStrip url) = none)
    (h4 : (findallSimple text).find? (fun c => endsWithL dotM3u8L (lowerL c)) = none) :
    grab_m3u8_log env url =
      scriptLoop env ((scriptSrcsOf env text (pyStrip url)).take 5) [pyStrip url] ∧
    (grab_m3u8_log env url).2.length ≤ 6 ∧
    (∀ s rest log, env.fetch s = none →
      (scriptLoop env (s :: rest) log).1 = (scriptLoop env rest log).1) ∧
    (∀ s rest log body link, env.fetch s = some body →
      find_m3u8_in_text env body s = some link →
      (scriptLoop env (s :: rest) log).1 = link) := by
  have heq : grab_m3u8_log env url =
      scriptLoop env ((scriptSrcsOf env text (pyStrip url)).take 5) [pyStrip url] := by
    unfold grab_m3u8_log
    simp [h0, h1, h2, h3, h4]
  refine ⟨heq, ?_, ?_, ?_⟩
  · rw [heq]
    have hb := scriptLoop_log_len env ((scriptSrcsOf env text (pyStrip url)).take 5)
      [pyStrip url]
    have ht : ((scriptSrcsOf env text (pyStrip url)).take 5).length ≤ 5 := by
      simp [List.length_take]
    simp at hb
    omega
  · intro s rest log hs
    rw [scriptLoop_cons_none env s rest log hs]
    exact scriptLoop_fst_log_irrel env rest (log ++ [s]) log
  · intro s rest log body link hs hl
    rw [scriptLoop_cons_some env s body rest log hs, hl]

/-- Page body for the C6 witness: defeats every page-level heuristic. -/
def pageC6W : List Char := "nothing useful".toList

/-- Script body for the C6 witness: step 1 finds the link. -/
def scriptC6W : List Char := "see http://y.m3u8 !".toList

/-- Environment for the C6 witness: the first script URL fails to fetch,
the second one carries the link. -/
def envC6W : Env :=
  { fetch := fun u =>
      if u = "http://p".toList then some pageC6W
      else if u = "http://s2".toList then some scriptC6W
      else none,
    bs4 := some { extract := fun _ _ => none,
                  scriptSrcs := fun _ _ => ["http://dead".toList, "http://s2".toList] },
    urljoin := fun _ r => r }

theorem grab_m3u8_scriptloop_bounded_witness :
    grab_m3u8_log envC6W "http://p".toList =
      scriptLoop envC6W
        ((scriptSrcsOf envC6W pageC6W (pyStrip "http://p".toList)).take 5)
        [pyStrip "http://p".toList] ∧
    (grab_m3u8_log envC6W "http://p".toList).2.length ≤ 6 ∧
    (scriptLoop envC6W ("http://dead".toList :: ["http://s2".toList]) []).1 =
      (scriptLoop envC6W ["http://s2".toList] []).1 ∧
    (scriptLoop envC6W ("http://s2".toList :: []) []).1 = "http://y.m3u8".toList := by
  obtain ⟨a, b, c, d⟩ := grab_m3u8_scriptloop_bounded envC6W "http://p".toList pageC6W
    (by decide) rfl (by decide) rfl (by decide)
  exact ⟨a, b, c "http://dead".toList ["http://s2".toList] [] rfl,
    d "http://s2".toList [] [] scriptC6W "http://y.m3u8".toList rfl (by decide)⟩

/-- In a list sorted by descending rank, the first element satisfying `p`
has maximal height among the elements satisfying `p`. -/
lemma find?_sorted_max {p : FormatDesc → Bool} :
    ∀ (l : List FormatDesc), List.Pairwise rankGE l →
      ∀ {f : FormatDesc}, l.find? p = some f →
      ∀ g ∈ l, p g = true → heightOf g ≤ heightOf f := by
  intro l
  induction l with
  | nil => intro _ f hf; simp at hf
  | cons x xs ih =>
    intro hpw f hf g hg hpg
    rw [List.pairwise_cons] at hpw
    cases hx : p x
    · rw [List.find?_cons_of_neg _ (by simp [hx])] at hf
      rcases List.mem_cons.mp hg with rfl | hg'
      · rw [hx] at hpg; exact absurd hpg (by simp)
      · exact ih hpw.2 hf g hg' hpg
    · rw [List.find?_cons_of_pos _ hx] at hf
      cases hf
      rcases List.mem_cons.mp hg with rfl | hg'
      · exact Nat.le_refl _
      · exact hpw.1 g hg'

/-- **C9.** (Modelled from the spec, §4.3.)  Over descriptors whose
resolutions all resolve: when any HLS descriptor exists, `bestFormat`
returns the URL of an HLS descriptor of maximal height among the HLS ones
(so an HLS 480p wins over a non-HLS 1080p); when none is HLS, it returns
the URL of a descriptor with a URL of maximal height among those with a
URL. -/
theorem bestFormat_prefers_hls_then_resolution (formats : List FormatDesc)
    (topUrl : Option (List Char))
    (hall : ∀ f ∈ formats, f.height.isSome = true) :
    ((∃ f ∈ formats, isHls f = true) →
      ∃ f ∈ formats, isHls f = true ∧ bestFormat formats topUrl = f.url ∧
        ∀ g ∈ formats, isHls g = true → heightOf g ≤ heightOf f) ∧
    ((∀ f ∈ formats, isHls f = false) →
      (∃ f ∈ formats, f.url.isEmpty = false) →
      ∃ f ∈ formats, f.url.isEmpty = false ∧ bestFormat formats topUrl = f.url ∧
        ∀ g ∈ formats, g.url.isEmpty = false → heightOf g ≤ heightOf f) := by
  have hfil : formats.filter (fun f => f.height.isSome) = formats :=
    List.filter_eq_self.mpr hall
  have hsorted : List.Pairwise rankGE (List.insertionSort rankGE formats) :=
    List.sorted_insertionSort rankGE formats
  have hmem : ∀ g : FormatDesc,
      g ∈ List.insertionSort rankGE formats ↔ g ∈ formats :=
    fun _ => (List.perm_insertionSort rankGE formats).mem_iff
  constructor
  · rintro ⟨f0, hf0, hhls0⟩
    cases hfind : (List.insertionSort rankGE formats).find? isHls with
    | none =>
      exact absurd hhls0 (List.find?_eq_none.mp hfind f0 ((hmem f0).mpr hf0))
    | some f =>
      refine ⟨f, (hmem f).mp (List.mem_of_find?_eq_some hfind),
        List.find?_some hfind, ?_, ?_⟩
      · simp only [bestFormat, hfil, hfind]
      · intro g hg hpg
        exact find?_sorted_max _ hsorted hfind g ((hmem g).mpr hg) hpg
  · rintro hnone ⟨f0, hf0, hurl0⟩
    have hfindH : (List.insertionSort rankGE formats).find? isHls = none :=
      List.find?_eq_none.mpr (fun x hx => by simp [hnone x ((hmem x).mp hx)])
    cases hfind : (List.insertionSort rankGE formats).find?
        (fun f => !f.url.isEmpty) with
    | none =>
      have := List.find?_eq_none.mp hfind f0 ((hmem f0).mpr hf0)
      simp [hurl0] at this
    | some f =>
      have hpf := List.find?_some hfind
      refine ⟨f, (hmem f).mp (List.mem_of_find?_eq_some hfind), ?_, ?_, ?_⟩
      · simpa using hpf
      · simp only [bestFormat, hfil, hfindH, hfind]
      · intro g hg hpg
        exact find?_sorted_max _ hsorted hfind g ((hmem g).mpr hg) (by simp [hpg])

/-- A non-HLS 1080p descriptor. -/
def fmtNonHls1080 : FormatDesc :=
  { height := some 1080, protocol := "https".toList, ext := "mp4".toList,
    url := "http://v/1080.mp4".toList }

/-- An HLS 480p descriptor. -/
def fmtHls480 : FormatDesc :=
  { height := some 480, protocol := "m3u8_native".toList, ext := "mp4".toList,
    url := "http://v/480.m3u8".toList }

/-- A non-HLS 360p descriptor. -/
def fmtNonHls360 : FormatDesc :=
  { height := some 360, protocol := "https".toList, ext := "mp4".toList,
    url := "http://v/360.mp4".toList }

/-- A non-HLS 720p descriptor. -/
def fmtNonHls720 : FormatDesc :=
  { height := some 720, protocol := "https".toList, ext := "mp4".toList,
    url := "http://v/720.mp4".toList }

theorem bestFormat_prefers_hls_then_resolution_witness :
    bestFormat [fmtNonHls1080, fmtHls480] none = "http://v/480.m3u8".toList ∧
    bestFormat [fmtNonHls360, fmtNonHls720] none = "http://v/720.mp4".toList := by
  constructor
  · obtain ⟨f, hf, hhls, heq, -⟩ :=
      (bestFormat_prefers_hls_then_resolution [fmtNonHls1080, fmtHls480] none
        (by decide)).1 ⟨fmtHls480, by decide, by decide⟩
    rcases (by simpa using hf : f = fmtNonHls1080 ∨ f = fmtHls480) with rfl | rfl
    · exact absurd hhls (by decide)
    · exact heq
  · obtain ⟨f, hf, hurl, heq, hmax⟩ :=
      (bestFormat_prefers_hls_then_resolution [fmtNonHls360, fmtNonHls720] none
        (by decide)).2 (by decide) ⟨fmtNonHls720, by decide, by decide⟩
    rcases (by simpa using hf : f = fmtNonHls360 ∨ f = fmtNonHls720) with rfl | rfl
    · exact absurd (hmax fmtNonHls720 (by decide) (by decide)) (by decide)
    · exact heq
